import Mathlib

/-!
Verification of the smart-regwatch ingestion and pipeline core.

The definitions below are a shallow embedding of the Python sources:

* `src/storage/sqlite_db.py` — the `documents` table and `upsert_document`,
  plus the helper writers used by the pipeline agents.  The database is a
  `DB` record holding the list of rows in insertion order together with the
  autoincrement counter; timestamps are `Nat` ticks.
* `src/agents/extraction_agent.py` — `_guess_mime_type_from_ext`,
  `_build_meta`, `_handle_zip` and `download_and_collect_metadata`.
  External collaborators (hashlib digests, the HTTP fetch, the zipfile
  parser) are passed in as function parameters; the zip member list stands
  for `zipfile.ZipFile(...).infolist()` in enumeration order, and staged
  file writes are returned explicitly as an ordered `(path, bytes)` list.
* `src/agents/content_extraction_agent.py`, `translation_agent.py`,
  `keyword_agent.py`, `notification_agent.py` and
  `src/agents/orchestrator.py` — the per-document stage loop.  Format
  specific extractors, the OpenAI call, `textwrap.shorten` and the SMTP
  client are parameters; a raised Python exception is an `Except.error`
  that carries the already-committed store state with it (every helper in
  `sqlite_db.py` commits in its own session, so a later raise never rolls
  an earlier commit back).

Python `pathlib` / `os.path` string helpers are re-implemented on
`List Char` so that all definitions compute by kernel reduction.
-/

/-! ## String helpers (pathlib / os.path / str methods) -/

/-- Whitespace characters stripped by Python `str.strip()`. -/
def isPyWhitespace (c : Char) : Bool :=
  c = ' ' || c = '\t' || c = '\n' || c = '\r' || c = '\x0b' || c = '\x0c'

/-- Python `str.strip()`. -/
def pyStrip (s : String) : String :=
  ⟨((s.data.dropWhile isPyWhitespace).reverse.dropWhile isPyWhitespace).reverse⟩

/-- `not text.strip()` in Python: the string is empty or whitespace-only. -/
def stripIsEmpty (s : String) : Bool :=
  s.data.all isPyWhitespace

/-- Split a character list at every occurrence of the separator character. -/
def splitOnChar (sep : Char) (l : List Char) : List (List Char) :=
  l.foldr
    (fun c acc =>
      match acc with
      | [] => if c = sep then [[], []] else [[c]]
      | cur :: rest => if c = sep then [] :: cur :: rest else (c :: cur) :: rest)
    [[]]

/-- `pathlib.PurePath(s).name`: the last non-empty `/`-separated component. -/
def pathName (s : String) : String :=
  ⟨(((splitOnChar '/' s.data).filter (fun c => !c.isEmpty)).getLastD [])⟩

/-- `os.path.basename(s)`: everything after the last `/` (may be empty). -/
def osBasename (s : String) : String :=
  ⟨(splitOnChar '/' s.data).getLastD []⟩

/-- Last index of `c` in `l`, if any. -/
def lastIdxOf (c : Char) (l : List Char) : Option Nat :=
  ((List.range l.length).filter (fun i => l.getD i ' ' = c && i < l.length)).getLast?

/-- `pathlib.PurePath(name).suffix` of a bare file name: the part from the
last dot, but only when that dot is neither the first nor the last
character (`.bashrc` and `name.` have no suffix). -/
def pySuffix (name : String) : String :=
  let l := name.data
  match lastIdxOf '.' l with
  | none => ""
  | some i => if 0 < i ∧ i < l.length - 1 then ⟨l.drop i⟩ else ""

/-- `pathlib.PurePath(p).suffix`: suffix of the final component. -/
def pathSuffix (p : String) : String :=
  pySuffix (pathName p)

/-- `pathlib.PurePath(p).stem`: the final component without its suffix. -/
def pathStem (p : String) : String :=
  let name := pathName p
  let suf := pySuffix name
  ⟨name.data.take (name.data.length - suf.data.length)⟩

/-- ASCII lowering, modelling `str.lower()` on the extension strings used
by the agents. -/
def lowerStr (s : String) : String :=
  ⟨s.data.map Char.toLower⟩

/-- `sep.join(parts)` / `str.split` inverse used for mail recipients. -/
def joinSep (sep : String) : List String → String
  | [] => ""
  | [x] => x
  | x :: y :: rest => x ++ sep ++ joinSep sep (y :: rest)

/-- `urllib.parse.urlparse(url).path` for the absolute URLs the agent
handles: the fragment and query are cut off, then the scheme and network
location are skipped up to the first `/` after `://`. -/
def urlPathOf (url : String) : String :=
  let noFrag : List Char := (splitOnChar '#' url.data).headD []
  let noQuery : List Char := (splitOnChar '?' noFrag).headD []
  let rec afterScheme : List Char → Option (List Char)
    | ':' :: '/' :: '/' :: rest => some rest
    | _ :: rest => afterScheme rest
    | [] => none
  match afterScheme noQuery with
  | none => ⟨noQuery⟩
  | some rest =>
    match (splitOnChar '/' rest) with
    | [] => ""
    | [_] => ""
    | _ :: tail => ⟨'/' :: (joinSep "/" (tail.map (fun c => (⟨c⟩ : String)))).data⟩

/-! ## Data model: the `documents` table (`src/storage/sqlite_db.py`) -/

/-- One row of the `documents` table. -/
structure Document where
  id : Nat
  source : String
  title : String
  url : String
  filename : String
  local_path : String
  filesize_bytes : Nat
  mime_type : String
  checksum : String
  version : Nat
  previous_version_id : Option Nat
  first_seen_at : Nat
  last_seen_at : Nat
  downloaded_at : Nat
deriving Repr, DecidableEq

/-- The documents store: rows in insertion order plus the autoincrement
primary-key counter. -/
structure DB where
  docs : List Document
  nextId : Nat
deriving Repr, DecidableEq

/-- The `meta` dict produced by `_build_meta` and consumed by
`upsert_document`. -/
structure DocumentMeta where
  source : String
  title : String
  url : String
  filename : String
  local_path : String
  filesize_bytes : Nat
  mime_type : String
  checksum : String
  downloaded_at : Nat
deriving Repr, DecidableEq

/-- `session.query(Document).filter(Document.url == url)`: the rows for
one URL, in insertion order. -/
def docsFor (db : DB) (u : String) : List Document :=
  db.docs.filter (fun d => d.url == u)

/-- Fold that returns the row with the (first) maximal version, modelling
`.order_by(Document.version.desc()).all()` followed by taking element 0. -/
def pickLatest (l : List Document) : Option Document :=
  l.foldl
    (fun acc d =>
      match acc with
      | none => some d
      | some b => if b.version < d.version then some d else some b)
    none

/-- The latest row for a URL. -/
def latestDoc (db : DB) (u : String) : Option Document :=
  pickLatest (docsFor db u)

/-- `upsert_document` (src/storage/sqlite_db.py, lines 102-172).
Returns the row the Python function returns together with the updated
store.  `now` models `datetime.utcnow()`. -/
def upsert_document (db : DB) (meta : DocumentMeta) (now : Nat) : Document × DB :=
  match latestDoc db meta.url with
  | none =>
    let doc : Document :=
      { id := db.nextId, source := meta.source, title := meta.title, url := meta.url,
        filename := meta.filename, local_path := meta.local_path,
        filesize_bytes := meta.filesize_bytes, mime_type := meta.mime_type,
        checksum := meta.checksum, version := 1, previous_version_id := none,
        first_seen_at := now, last_seen_at := now, downloaded_at := meta.downloaded_at }
    (doc, { docs := db.docs ++ [doc], nextId := db.nextId + 1 })
  | some latest =>
    if latest.checksum = meta.checksum then
      ({ latest with last_seen_at := now },
       { db with
          docs := db.docs.map
            (fun d => if d.id = latest.id then { d with last_seen_at := now } else d) })
    else
      let doc : Document :=
        { id := db.nextId, source := meta.source, title := meta.title, url := meta.url,
          filename := meta.filename, local_path := meta.local_path,
          filesize_bytes := meta.filesize_bytes, mime_type := meta.mime_type,
          checksum := meta.checksum, version := latest.version + 1,
          previous_version_id := some latest.id,
          first_seen_at := now, last_seen_at := now, downloaded_at := meta.downloaded_at }
      (doc, { docs := db.docs ++ [doc], nextId := db.nextId + 1 })

/-- A sequence of upserts, each with its own observation time. -/
def upsertSeq (db : DB) (l : List (DocumentMeta × Nat)) : DB :=
  l.foldl (fun acc p => (upsert_document acc p.1 p.2).2) db

/-! ## Basic lemmas about `pickLatest` -/

theorem pickLatest_go_isSome (t : List Document) :
    ∀ b, (t.foldl
      (fun acc d =>
        match acc with
        | none => some d
        | some b => if b.version < d.version then some d else some b)
      (some b)).isSome = true := by
  induction t with
  | nil => intro b; rfl
  | cons c t ih =>
    intro b
    simp only [List.foldl_cons]
    by_cases h : b.version < c.version
    · simpa [h] using ih c
    · simpa [h] using ih b

theorem pickLatest_eq_none_iff (l : List Document) :
    pickLatest l = none ↔ l = [] := by
  cases l with
  | nil => simp [pickLatest]
  | cons a t =>
    simp only [pickLatest, List.foldl_cons]
    constructor
    · intro h
      have := pickLatest_go_isSome t a
      rw [h] at this
      simp at this
    · intro h; cases h

theorem pickLatest_mem (l : List Document) :
    ∀ c, pickLatest l = some c → c ∈ l := by
  have go : ∀ (t : List Document) (b c : Document),
      (t.foldl
        (fun acc d =>
          match acc with
          | none => some d
          | some b => if b.version < d.version then some d else some b)
        (some b)) = some c → c = b ∨ c ∈ t := by
    intro t
    induction t with
    | nil => intro b c h; left; cases h; rfl
    | cons x t ih =>
      intro b c h
      simp only [List.foldl_cons] at h
      by_cases hx : b.version < x.version
      · rw [if_pos hx] at h
        rcases ih x c h with h1 | h1
        · right; simp [h1]
        · right; simp [h1]
      · rw [if_neg hx] at h
        rcases ih b c h with h1 | h1
        · left; exact h1
        · right; simp [h1]
  intro c h
  cases l with
  | nil => cases h
  | cons a t =>
    simp only [pickLatest, List.foldl_cons] at h
    rcases go t a c h with h1 | h1
    · simp [h1]
    · simp [h1]

theorem pickLatest_version_le (l : List Document) :
    ∀ c, pickLatest l = some c → ∀ d ∈ l, d.version ≤ c.version := by
  have go : ∀ (t : List Document) (b c : Document),
      (t.foldl
        (fun acc d =>
          match acc with
          | none => some d
          | some b => if b.version < d.version then some d else some b)
        (some b)) = some c → b.version ≤ c.version ∧ ∀ d ∈ t, d.version ≤ c.version := by
    intro t
    induction t with
    | nil =>
      intro b c h
      cases h
      exact ⟨le_refl _, by simp⟩
    | cons x t ih =>
      intro b c h
      simp only [List.foldl_cons] at h
      by_cases hx : b.version < x.version
      · rw [if_pos hx] at h
        rcases ih x c h with ⟨h1, h2⟩
        refine ⟨le_of_lt (lt_of_lt_of_le hx h1), ?_⟩
        intro d hd
        rcases List.mem_cons.mp hd with rfl | hd
        · exact h1
        · exact h2 d hd
      · rw [if_neg hx] at h
        rcases ih b c h with ⟨h1, h2⟩
        refine ⟨h1, ?_⟩
        intro d hd
        rcases List.mem_cons.mp hd with rfl | hd
        · exact le_trans (le_of_not_lt hx) h1
        · exact h2 d hd
  intro c h d hd
  cases l with
  | nil => cases hd
  | cons a t =>
    simp only [pickLatest, List.foldl_cons] at h
    rcases go t a c h with ⟨h1, h2⟩
    rcases List.mem_cons.mp hd with rfl | hd
    · exact h1
    · exact h2 d hd

/-- Appending a row whose version strictly dominates every existing one
makes it the latest. -/
theorem pickLatest_append_big (l : List Document) (x : Document)
    (h : ∀ d ∈ l, d.version < x.version) :
    pickLatest (l ++ [x]) = some x := by
  unfold pickLatest
  rw [List.foldl_append]
  rcases hl : pickLatest l with _ | c
  · rw [pickLatest_eq_none_iff] at hl
    subst hl
    rfl
  · have hc : c ∈ l := pickLatest_mem l c hl
    have : (List.foldl
        (fun acc d =>
          match acc with
          | none => some d
          | some b => if b.version < d.version then some d else some b)
        none l) = some c := hl
    rw [this]
    simp only [List.foldl_cons, List.foldl_nil]
    rw [if_pos (h c hc)]

/-- `pickLatest` commutes with a row-map that preserves every version. -/
theorem pickLatest_map (f : Document → Document) (l : List Document)
    (hf : ∀ d, (f d).version = d.version) :
    pickLatest (l.map f) = (pickLatest l).map f := by
  have go : ∀ (t : List Document) (b : Document),
      (List.foldl
        (fun acc d =>
          match acc with
          | none => some d
          | some b => if b.version < d.version then some d else some b)
        (some (f b)) (t.map f)) = ((List.foldl
        (fun acc d =>
          match acc with
          | none => some d
          | some b => if b.version < d.version then some d else some b)
        (some b) t).map f) := by
    intro t
    induction t with
    | nil => intro b; rfl
    | cons x t ih =>
      intro b
      simp only [List.map_cons, List.foldl_cons, hf]
      by_cases hx : b.version < x.version
      · rw [if_pos hx, if_pos hx, ih x]
      · rw [if_neg hx, if_neg hx, ih b]
  cases l with
  | nil => rfl
  | cons a t =>
    simp only [pickLatest, List.map_cons, List.foldl_cons]
    exact go t a

theorem docsFor_append_doc (db : DB) (u : String) (doc : Document) (n : Nat)
    (hu : doc.url = u) :
    docsFor { docs := db.docs ++ [doc], nextId := n } u = docsFor db u ++ [doc] := by
  simp [docsFor, List.filter_append, hu]

theorem docsFor_map (db : DB) (u : String) (f : Document → Document)
    (hf : ∀ d, (f d).url = d.url) :
    docsFor { db with docs := db.docs.map f } u = (docsFor db u).map f := by
  show (db.docs.map f).filter (fun d => d.url == u)
      = (db.docs.filter (fun d => d.url == u)).map f
  induction db.docs with
  | nil => rfl
  | cons a t ih =>
    by_cases ha : a.url = u
    · have hfa : ((f a).url == u) = true := by simp [hf, ha]
      simp [List.filter_cons, hfa, ha, ih]
    · have hfa : ((f a).url == u) = false := by simp [hf, ha]
      simp [List.filter_cons, hfa, ha, ih]

/-- After any upsert of `meta`, the latest row for `meta.url` is exactly the
returned row, and its checksum is `meta`'s. -/
theorem upsert_latest (db : DB) (meta : DocumentMeta) (now : Nat) :
    latestDoc (upsert_document db meta now).2 meta.url
        = some (upsert_document db meta now).1
      ∧ (upsert_document db meta now).1.checksum = meta.checksum := by
  rcases h : latestDoc db meta.url with _ | latest
  · have hempty : docsFor db meta.url = [] := by
      have := h
      rw [latestDoc, pickLatest_eq_none_iff] at this
      exact this
    simp only [upsert_document, h]
    constructor
    · rw [latestDoc, docsFor_append_doc db meta.url _ _ rfl, hempty]
      rfl
    · trivial
  · simp only [upsert_document, h]
    by_cases hc : latest.checksum = meta.checksum
    · rw [if_pos hc]
      constructor
      · rw [latestDoc,
          docsFor_map db meta.url _ (by
            intro d
            by_cases hd : d.id = latest.id <;> simp [hd]),
          pickLatest_map _ _ (by
            intro d
            by_cases hd : d.id = latest.id <;> simp [hd])]
        have hlatest : pickLatest (docsFor db meta.url) = some latest := h
        rw [hlatest]
        simp
      · simpa using hc
    · rw [if_neg hc]
      constructor
      · rw [latestDoc, docsFor_append_doc db meta.url _ _ rfl]
        apply pickLatest_append_big
        intro d hd
        have hle : d.version ≤ latest.version :=
          pickLatest_version_le (docsFor db meta.url) latest h d hd
        show d.version < latest.version + 1
        omega
      · rfl

/-- C1: `upsert_document` follows the three-way algorithm keyed solely on
(url, checksum): no row for the URL → insert version 1 with no predecessor;
latest row's checksum equal to the incoming one → no new row, the latest
row is returned with only `last_seen_at` refreshed; checksums differ →
insert version `latest.version + 1` with predecessor reference
`latest.id`. -/
theorem upsert_document_three_way (db : DB) (meta : DocumentMeta) (now : Nat) :
    (docsFor db meta.url = [] →
      (upsert_document db meta now).1.version = 1
        ∧ (upsert_document db meta now).1.previous_version_id = none
        ∧ (upsert_document db meta now).1.checksum = meta.checksum
        ∧ (upsert_document db meta now).1.url = meta.url
        ∧ (upsert_document db meta now).1.first_seen_at = now
        ∧ (upsert_document db meta now).1.last_seen_at = now
        ∧ (upsert_document db meta now).2.docs
            = db.docs ++ [(upsert_document db meta now).1])
    ∧ (∀ latest, latestDoc db meta.url = some latest →
        latest.checksum = meta.checksum →
        (upsert_document db meta now).2.docs.length = db.docs.length
          ∧ (upsert_document db meta now).1 = { latest with last_seen_at := now })
    ∧ (∀ latest, latestDoc db meta.url = some latest →
        latest.checksum ≠ meta.checksum →
        (upsert_document db meta now).1.version = latest.version + 1
          ∧ (upsert_document db meta now).1.previous_version_id = some latest.id
          ∧ (upsert_document db meta now).1.checksum = meta.checksum
          ∧ (upsert_document db meta now).1.first_seen_at = now
          ∧ (upsert_document db meta now).1.last_seen_at = now
          ∧ (upsert_document db meta now).2.docs
              = db.docs ++ [(upsert_document db meta now).1]) := by
  refine ⟨?_, ?_, ?_⟩
  · intro hempty
    have hnone : latestDoc db meta.url = none := by
      rw [latestDoc, hempty]
      rfl
    simp [upsert_document, hnone]
  · intro latest hl hc
    simp [upsert_document, hl, hc]
  · intro latest hl hc
    simp [upsert_document, hl, hc]

/-- Witness for C1: both the fresh-URL branch and the changed-checksum
branch are exercised on concrete stores. -/
theorem upsert_document_three_way_check :
    ((upsert_document ⟨[], 0⟩
        ⟨"S", "T", "http://a/x.pdf", "x.pdf", "data/raw/x.pdf", 3,
         "application/pdf", "c1", 11⟩ 5).1.version = 1
      ∧ (upsert_document ⟨[], 0⟩
        ⟨"S", "T", "http://a/x.pdf", "x.pdf", "data/raw/x.pdf", 3,
         "application/pdf", "c1", 11⟩ 5).1.previous_version_id = none)
    ∧ ((upsert_document
        ⟨[⟨0, "S", "T", "http://a/x.pdf", "x.pdf", "data/raw/x.pdf", 3,
            "application/pdf", "c1", 1, none, 5, 5, 11⟩], 1⟩
        ⟨"S", "T", "http://a/x.pdf", "x.pdf", "data/raw/x.pdf", 4,
         "application/pdf", "c2", 12⟩ 6).1.version = 2
      ∧ (upsert_document
        ⟨[⟨0, "S", "T", "http://a/x.pdf", "x.pdf", "data/raw/x.pdf", 3,
            "application/pdf", "c1", 1, none, 5, 5, 11⟩], 1⟩
        ⟨"S", "T", "http://a/x.pdf", "x.pdf", "data/raw/x.pdf", 4,
         "application/pdf", "c2", 12⟩ 6).1.previous_version_id = some 0) := by
  constructor
  · have h := (upsert_document_three_way ⟨[], 0⟩
      ⟨"S", "T", "http://a/x.pdf", "x.pdf", "data/raw/x.pdf", 3,
       "application/pdf", "c1", 11⟩ 5).1 (by rfl)
    exact ⟨h.1, h.2.1⟩
  · have h := (upsert_document_three_way
      ⟨[⟨0, "S", "T", "http://a/x.pdf", "x.pdf", "data/raw/x.pdf", 3,
          "application/pdf", "c1", 1, none, 5, 5, 11⟩], 1⟩
      ⟨"S", "T", "http://a/x.pdf", "x.pdf", "data/raw/x.pdf", 4,
       "application/pdf", "c2", 12⟩ 6).2.2
      ⟨0, "S", "T", "http://a/x.pdf", "x.pdf", "data/raw/x.pdf", 3,
        "application/pdf", "c1", 1, none, 5, 5, 11⟩ (by rfl) (by decide)
    exact ⟨h.1, h.2.1⟩

/-- C3: upsert is idempotent on (url, checksum): a second upsert of the
same meta record creates no row, returns the same version, and changes
only `last_seen_at` of the stored latest row. -/
theorem upsert_document_idempotent (db : DB) (meta : DocumentMeta) (t1 t2 : Nat) :
    (upsert_document (upsert_document db meta t1).2 meta t2).1.version
        = (upsert_document db meta t1).1.version
      ∧ (upsert_document (upsert_document db meta t1).2 meta t2).2.docs.length
        = (upsert_document db meta t1).2.docs.length
      ∧ (upsert_document (upsert_document db meta t1).2 meta t2).1
        = { (upsert_document db meta t1).1 with last_seen_at := t2 }
      ∧ latestDoc (upsert_document db meta t1).2 meta.url
        = some (upsert_document db meta t1).1
      ∧ latestDoc (upsert_document (upsert_document db meta t1).2 meta t2).2 meta.url
        = some (upsert_document (upsert_document db meta t1).2 meta t2).1 := by
  obtain ⟨hl, hc⟩ := upsert_latest db meta t1
  have h2 := upsert_latest (upsert_document db meta t1).2 meta t2
  refine ⟨?_, ?_, ?_, hl, h2.1⟩
  all_goals
    rcases hE : upsert_document db meta t1 with ⟨d1, db1⟩
  all_goals
    rw [hE] at hl hc
  all_goals
    have hl2 : latestDoc db1 meta.url = some d1 := hl
  all_goals
    have hc2 : d1.checksum = meta.checksum := hc
  all_goals
    simp [upsert_document, hl2, hc2]

/-- On a list whose versions strictly increase, the max-version fold picks
the last element. -/
theorem pickLatest_of_version_chain (l : List Document)
    (h : List.Chain' (fun a b => a.version < b.version) l) :
    pickLatest l = l.getLast? := by
  have go : ∀ (t : List Document) (b : Document),
      List.Chain (fun a b => a.version < b.version) b t →
      (t.foldl
        (fun acc d =>
          match acc with
          | none => some d
          | some b => if b.version < d.version then some d else some b)
        (some b)) = (b :: t).getLast? := by
    intro t
    induction t with
    | nil => intro b _; rfl
    | cons c t ih =>
      intro b hb
      rcases List.chain_cons.mp hb with ⟨hbc, hc⟩
      simp only [List.foldl_cons]
      rw [if_pos hbc, ih c hc, List.getLast?_cons_cons]
  cases l with
  | nil => rfl
  | cons a t =>
    simp only [pickLatest, List.foldl_cons]
    exact go t a h

/-- Rows whose version is determined by their index have strictly
increasing versions. -/
theorem version_chain_of_indexed (rl : List Document)
    (h : ∀ j, j < rl.length → ∀ d, rl.get? j = some d → d.version = 1 + j) :
    List.Chain' (fun a b => a.version < b.version) rl := by
  rw [List.chain'_iff_get]
  intro i hi
  have h1 := h i (by omega) (rl.get ⟨i, by omega⟩) (List.get?_eq_get (by omega))
  have h2 := h (i + 1) (by omega) (rl.get ⟨i + 1, by omega⟩)
    (List.get?_eq_get (by omega))
  omega

/-- Invariant carried through `upsertSeq` for claim C2: after `k` rows for
URL `u` with ids `i0..i0+k-1`, versions `1..k` and chained predecessor
references, a run of distinct-checksum upserts extends the table
row-by-row. -/
theorem upsertSeq_struct (u : String) :
    ∀ (l : List (DocumentMeta × Nat)) (db : DB) (i0 k : Nat),
    (docsFor db u).length = k →
    (∀ j, j < k → ∃ d, (docsFor db u).get? j = some d ∧
        d.url = u ∧ d.version = 1 + j ∧ d.id = i0 + j ∧
        d.previous_version_id = (if j = 0 then none else some (i0 + j - 1))) →
    (∀ d m, (docsFor db u).getLast? = some d → l.head? = some m →
        d.checksum ≠ m.1.checksum) →
    db.nextId = i0 + k →
    (∀ p ∈ l, p.1.url = u) →
    List.Chain' (fun a b => a.1.checksum ≠ b.1.checksum) l →
    ((docsFor (upsertSeq db l) u).length = k + l.length
      ∧ (∀ j, j < k + l.length → ∃ d, (docsFor (upsertSeq db l) u).get? j = some d ∧
          d.url = u ∧ d.version = 1 + j ∧ d.id = i0 + j ∧
          d.previous_version_id = (if j = 0 then none else some (i0 + j - 1)))
      ∧ (upsertSeq db l).nextId = i0 + (k + l.length)) := by
  intro l
  induction l with
  | nil =>
    intro db i0 k hlen hstruct _ hnext _ _
    simp only [upsertSeq, List.foldl_nil, List.length_nil, Nat.add_zero]
    exact ⟨hlen, hstruct, hnext⟩
  | cons p rest ih =>
    intro db i0 k hlen hstruct hchk hnext hurl hchain
    obtain ⟨m, t⟩ := p
    have hu : m.url = u := hurl (m, t) (List.mem_cons_self _ _)
    rcases List.chain'_cons'.mp hchain with ⟨hhead, htail⟩
    have harith : k + ((m, t) :: rest).length = (k + 1) + rest.length := by
      simp; omega
    rw [harith]
    have hseq : upsertSeq db ((m, t) :: rest)
        = upsertSeq (upsert_document db m t).2 rest := rfl
    rw [hseq]
    rcases Nat.eq_zero_or_pos k with hk | hk
    · -- no rows for the URL yet: the upsert inserts version 1
      subst hk
      have hempty : docsFor db u = [] := by
        rw [← List.length_eq_zero, hlen]
      have hnone : latestDoc db m.url = none := by
        rw [latestDoc, hu, hempty]; rfl
      have hbody : (upsert_document db m t).2
          = { docs := db.docs ++
              [{ id := db.nextId, source := m.source, title := m.title, url := m.url,
                 filename := m.filename, local_path := m.local_path,
                 filesize_bytes := m.filesize_bytes, mime_type := m.mime_type,
                 checksum := m.checksum, version := 1, previous_version_id := none,
                 first_seen_at := t, last_seen_at := t, downloaded_at := m.downloaded_at }],
              nextId := db.nextId + 1 } := by
        simp [upsert_document, hnone]
      have hdocs : docsFor (upsert_document db m t).2 u
          = [{ id := db.nextId, source := m.source, title := m.title, url := m.url,
               filename := m.filename, local_path := m.local_path,
               filesize_bytes := m.filesize_bytes, mime_type := m.mime_type,
               checksum := m.checksum, version := 1, previous_version_id := none,
               first_seen_at := t, last_seen_at := t, downloaded_at := m.downloaded_at }] := by
        rw [hbody, docsFor_append_doc db u _ _ hu, hempty, List.nil_append]
      apply ih (upsert_document db m t).2 i0 1
      · rw [hdocs]; rfl
      · intro j hj
        have hj0 : j = 0 := by omega
        subst hj0
        rw [hdocs]
        exact ⟨_, rfl, hu, rfl, hnext, by simp⟩
      · intro d m' hd hm'
        rw [hdocs] at hd
        obtain rfl := Option.some.inj (show _ = some d from hd)
        exact hhead m' (Option.mem_def.mpr hm')
      · rw [hbody]
        show db.nextId + 1 = i0 + 1
        omega
      · intro q hq
        exact hurl q (List.mem_cons_of_mem _ hq)
      · exact htail
    · -- the URL already has rows 1..k: the upsert appends version k+1
      obtain ⟨L, hLget, hLurl, hLver, hLid, hLprev⟩ := hstruct (k - 1) (by omega)
      have hlast : (docsFor db u).getLast? = some L := by
        rw [List.getLast?_eq_get?, hlen]
        exact hLget
      have hchainV : List.Chain' (fun a b => a.version < b.version) (docsFor db u) := by
        apply version_chain_of_indexed
        intro j hj d hd
        obtain ⟨d', hd', _, hv', _, _⟩ := hstruct j (by omega)
        rw [hd'] at hd
        cases hd
        exact hv'
      have hpick : latestDoc db m.url = some L := by
        rw [latestDoc, hu, pickLatest_of_version_chain _ hchainV]
        exact hlast
      have hne : ¬ (L.checksum = m.checksum) :=
        hchk L (m, t) hlast rfl
      have hbody : (upsert_document db m t).2
          = { docs := db.docs ++
              [{ id := db.nextId, source := m.source, title := m.title, url := m.url,
                 filename := m.filename, local_path := m.local_path,
                 filesize_bytes := m.filesize_bytes, mime_type := m.mime_type,
                 checksum := m.checksum, version := L.version + 1,
                 previous_version_id := some L.id,
                 first_seen_at := t, last_seen_at := t, downloaded_at := m.downloaded_at }],
              nextId := db.nextId + 1 } := by
        simp [upsert_document, hpick, hne]
      have hdocs : docsFor (upsert_document db m t).2 u
          = docsFor db u ++
            [{ id := db.nextId, source := m.source, title := m.title, url := m.url,
               filename := m.filename, local_path := m.local_path,
               filesize_bytes := m.filesize_bytes, mime_type := m.mime_type,
               checksum := m.checksum, version := L.version + 1,
               previous_version_id := some L.id,
               first_seen_at := t, last_seen_at := t, downloaded_at := m.downloaded_at }] := by
        rw [hbody]
        exact docsFor_append_doc db u _ _ hu
      apply ih (upsert_document db m t).2 i0 (k + 1)
      · rw [hdocs]
        simp [hlen]
      · intro j hj
        rcases Nat.lt_or_ge j k with hjk | hjk
        · obtain ⟨d, hd, h1, h2, h3, h4⟩ := hstruct j hjk
          refine ⟨d, ?_, h1, h2, h3, h4⟩
          rw [hdocs, List.get?_append (by omega)]
          exact hd
        · have hjeq : j = k := by omega
          subst hjeq
          have hget : (docsFor (upsert_document db m t).2 u).get? j
              = some { id := db.nextId, source := m.source, title := m.title,
                       url := m.url, filename := m.filename,
                       local_path := m.local_path,
                       filesize_bytes := m.filesize_bytes, mime_type := m.mime_type,
                       checksum := m.checksum, version := L.version + 1,
                       previous_version_id := some L.id,
                       first_seen_at := t, last_seen_at := t,
                       downloaded_at := m.downloaded_at } := by
            rw [hdocs, ← hlen]
            exact List.get?_concat_length _ _
          refine ⟨_, hget, hu, ?_, ?_, ?_⟩
          · show L.version + 1 = 1 + j
            omega
          · show db.nextId = i0 + j
            omega
          · rw [if_neg (show ¬ (j = 0) by omega)]
            show some L.id = some (i0 + j - 1)
            rw [hLid]
            congr 1
            omega
      · intro d m' hd hm'
        rw [hdocs, List.getLast?_concat] at hd
        obtain rfl := Option.some.inj (show _ = some d from hd)
        exact hhead m' (Option.mem_def.mpr hm')
      · rw [hbody]
        show db.nextId + 1 = i0 + (k + 1)
        omega
      · intro q hq
        exact hurl q (List.mem_cons_of_mem _ hq)
      · exact htail

/-- C2: starting from a store with no rows for URL `u`, a sequence of `N`
upserts to `u` with pairwise-distinct checksums yields rows for `u` whose
versions are exactly `1..N` in insertion order; each non-initial row's
predecessor reference equals the id of the row inserted just before it;
the chain is never cyclic (every predecessor id is strictly below the
row's own id) and never branching (no two rows share a predecessor
reference). -/
theorem upsertSeq_lineage (db : DB) (u : String) (l : List (DocumentMeta × Nat))
    (hempty : docsFor db u = [])
    (hurl : ∀ p ∈ l, p.1.url = u)
    (hdist : List.Pairwise (fun a b => a.1.checksum ≠ b.1.checksum) l) :
    ((docsFor (upsertSeq db l) u).map (fun d => d.version)
        = List.range' 1 l.length)
    ∧ List.Chain' (fun a b => b.previous_version_id = some a.id)
        (docsFor (upsertSeq db l) u)
    ∧ (∀ h0, (docsFor (upsertSeq db l) u).head? = some h0 →
        h0.previous_version_id = none)
    ∧ (∀ d ∈ docsFor (upsertSeq db l) u, ∀ p,
        d.previous_version_id = some p → p < d.id)
    ∧ (∀ i j d1 d2 p, i ≠ j →
        (docsFor (upsertSeq db l) u).get? i = some d1 →
        (docsFor (upsertSeq db l) u).get? j = some d2 →
        d1.previous_version_id = some p →
        d2.previous_version_id ≠ some p) := by
  obtain ⟨hlen, hstruct, _⟩ := upsertSeq_struct u l db db.nextId 0
    (by rw [hempty]; rfl)
    (by intro j hj; omega)
    (by intro d m hd _; rw [hempty] at hd; cases hd)
    rfl hurl hdist.chain'
  rw [Nat.zero_add] at hlen hstruct
  have hsome : ∀ j d, (docsFor (upsertSeq db l) u).get? j = some d →
      j < l.length ∧ d.url = u ∧ d.version = 1 + j ∧ d.id = db.nextId + j ∧
      d.previous_version_id = (if j = 0 then none else some (db.nextId + j - 1)) := by
    intro j d hd
    have hj : j < l.length := by
      by_contra hge
      rw [List.get?_eq_none.mpr (by omega)] at hd
      cases hd
    obtain ⟨d', hd', h1, h2, h3, h4⟩ := hstruct j hj
    rw [hd'] at hd
    cases hd
    exact ⟨hj, h1, h2, h3, h4⟩
  refine ⟨?_, ?_, ?_, ?_, ?_⟩
  · apply List.ext_getElem?
    intro n
    rw [← List.get?_eq_getElem?, ← List.get?_eq_getElem?, List.get?_map]
    rcases Nat.lt_or_ge n l.length with hn | hn
    · obtain ⟨d, hd, _, hv, _, _⟩ := hstruct n hn
      rw [hd, List.get?_eq_getElem?, List.getElem?_range' 1 1 hn]
      simp only [Option.map_some', Option.some.injEq]
      omega
    · rw [List.get?_eq_none.mpr (by omega),
        List.get?_eq_none.mpr (by simp [List.length_range']; omega)]
      rfl
  · rw [List.chain'_iff_get]
    intro i hi
    obtain ⟨_, _, _, hid1, _⟩ := hsome i _ (List.get?_eq_get (by omega))
    obtain ⟨_, _, _, _, hprev2⟩ := hsome (i + 1) _ (List.get?_eq_get (by omega))
    rw [hprev2, if_neg (by omega), hid1]
    congr 1
    try omega
  · intro h0 hh0
    rw [← List.get?_zero] at hh0
    obtain ⟨_, _, _, _, hprev⟩ := hsome 0 h0 hh0
    rw [hprev, if_pos rfl]
  · intro d hd p hp
    obtain ⟨n, hn⟩ := List.mem_iff_get?.mp hd
    obtain ⟨_, _, _, hid, hprev⟩ := hsome n d hn
    rw [hprev] at hp
    by_cases hn0 : n = 0
    · rw [if_pos hn0] at hp; cases hp
    · rw [if_neg hn0] at hp
      have := Option.some.inj hp
      omega
  · intro i j d1 d2 p hij h1 h2 hp1
    obtain ⟨hi, _, _, _, hprev1⟩ := hsome i d1 h1
    obtain ⟨hj, _, _, _, hprev2⟩ := hsome j d2 h2
    rw [hprev1] at hp1
    rw [hprev2]
    by_cases hi0 : i = 0
    · rw [if_pos hi0] at hp1; cases hp1
    · rw [if_neg hi0] at hp1
      have hpv := Option.some.inj hp1
      by_cases hj0 : j = 0
      · rw [if_pos hj0]
        intro hcontra
        cases hcontra
      · rw [if_neg hj0]
        intro hcontra
        have := Option.some.inj hcontra
        omega

/-- Witness for C2: two distinct-checksum upserts of the same URL on an
empty store yield versions `[1, 2]` with a correctly linked chain. -/
theorem upsertSeq_lineage_check :
    ((docsFor (upsertSeq ⟨[], 0⟩
        [(⟨"S", "T", "http://a/x.csv", "x.csv", "data/raw/x.csv", 3,
           "text/csv", "c1", 11⟩, 1),
         (⟨"S", "T", "http://a/x.csv", "x.csv", "data/raw/x.csv", 4,
           "text/csv", "c2", 12⟩, 2)]) "http://a/x.csv").map (fun d => d.version)
      = List.range' 1 2)
    ∧ List.Chain' (fun a b => b.previous_version_id = some a.id)
        (docsFor (upsertSeq ⟨[], 0⟩
          [(⟨"S", "T", "http://a/x.csv", "x.csv", "data/raw/x.csv", 3,
             "text/csv", "c1", 11⟩, 1),
           (⟨"S", "T", "http://a/x.csv", "x.csv", "data/raw/x.csv", 4,
             "text/csv", "c2", 12⟩, 2)]) "http://a/x.csv") := by
  have h := upsertSeq_lineage ⟨[], 0⟩ "http://a/x.csv"
    [(⟨"S", "T", "http://a/x.csv", "x.csv", "data/raw/x.csv", 3,
       "text/csv", "c1", 11⟩, 1),
     (⟨"S", "T", "http://a/x.csv", "x.csv", "data/raw/x.csv", 4,
       "text/csv", "c2", 12⟩, 2)]
    (by rfl) (by decide) (by decide)
  exact ⟨h.1, h.2.1⟩

/-! ## Extraction agent (`src/agents/extraction_agent.py`) -/

/-- `SUPPORTED_EXTENSIONS` (extraction_agent.py line 38).  Note that it
contains `.zip` and is the list used both for link discovery and for
filtering zip members. -/
def SUPPORTED_EXTENSIONS : List String :=
  [".pdf", ".zip", ".xls", ".xlsx", ".csv"]

/-- `_guess_mime_type_from_ext`. -/
def guess_mime_type_from_ext (ext : String) : String :=
  let e := lowerStr ext
  if e = ".pdf" then "application/pdf"
  else if e = ".xls" ∨ e = ".xlsx" then "application/vnd.ms-excel"
  else if e = ".csv" then "text/csv"
  else if e = ".zip" then "application/zip"
  else "application/octet-stream"

/-- `_build_meta`.  `hash` stands for `hashlib.sha256(...).hexdigest()`
(`get_file_checksum`); `contentType` is `headers.get("Content-Type")`,
with Python falsiness of `None` and `""` triggering the extension
fallback. -/
def build_meta (hash : List Nat → String) (source_label title url local_path
    filename : String) (content : List Nat) (contentType : Option String)
    (downloaded_at : Nat) : DocumentMeta :=
  { source := source_label, title := title, url := url,
    local_path := local_path, filename := filename,
    filesize_bytes := content.length,
    mime_type :=
      match contentType with
      | some ct => if ct = "" then guess_mime_type_from_ext (pathSuffix filename) else ct
      | none => guess_mime_type_from_ext (pathSuffix filename),
    checksum := hash content,
    downloaded_at := downloaded_at }

/-- One entry of `zipfile.ZipFile(...).infolist()`: the stored member path
and the member's bytes. -/
structure ZipMember where
  filename : String
  content : List Nat
deriving Repr, DecidableEq

/-- `zipfile.ZipInfo.is_dir()`: the stored name ends with a slash. -/
def zipIsDir (filename : String) : Bool :=
  filename.data.getLast? == some '/'

/-- The `unzipped_&lt;stem&gt;` staging directory `_handle_zip` derives from
the parent archive's local path. -/
def unzipDirFor (download_dir : String) (meta_zip : DocumentMeta) : String :=
  download_dir ++ "/" ++ ("unzipped_" ++ pathStem meta_zip.local_path)

/-- Member loop of `_handle_zip` (extraction_agent.py lines 142-173):
skip directories, drop members whose lower-cased extension is not in
`SUPPORTED_EXTENSIONS`, write the member bytes to
`unzip_dir / basename`, and build a metadata record with the synthetic
URL `parent_url#inner_path`.  Returns the records in enumeration order
together with the staged file writes in the order they happen. -/
def handleZipGo (hash : List Nat → String) (meta_zip : DocumentMeta)
    (unzip_dir : String) : List ZipMember → List DocumentMeta × List (String × List Nat)
  | [] => ([], [])
  | member :: rest =>
    if zipIsDir member.filename then handleZipGo hash meta_zip unzip_dir rest
    else
      let inner_name := pathName member.filename
      let ext := lowerStr (pySuffix inner_name)
      if SUPPORTED_EXTENSIONS.contains ext then
        let inner_local_path := unzip_dir ++ "/" ++ inner_name
        let inner_url := meta_zip.url ++ "#" ++ member.filename
        let inner_meta := build_meta hash meta_zip.source
          (meta_zip.title ++ " - " ++ inner_name) inner_url inner_local_path
          inner_name member.content (some (guess_mime_type_from_ext ext))
          meta_zip.downloaded_at
        let r := handleZipGo hash meta_zip unzip_dir rest
        (inner_meta :: r.1, (inner_local_path, member.content) :: r.2)
      else handleZipGo hash meta_zip unzip_dir rest

/-- `_handle_zip`: derives the staging directory from the parent's local
path, then runs the member loop over the archive's entries. -/
def handle_zip (hash : List Nat → String) (meta_zip : DocumentMeta)
    (entries : List ZipMember) (download_dir : String) :
    List DocumentMeta × List (String × List Nat) :=
  handleZipGo hash meta_zip (unzipDirFor download_dir meta_zip) entries

/-- The file a path holds after a sequence of writes: the last write to
that path wins. -/
def fsAfter (writes : List (String × List Nat)) (p : String) : Option (List Nat) :=
  writes.foldl (fun acc w => if w.1 = p then some w.2 else acc) none

/-- One `(url, title)` candidate from `extract_document_links`. -/
structure Link where
  url : String
  title : String
deriving Repr, DecidableEq

/-- Candidate loop of `download_and_collect_metadata`
(extraction_agent.py lines 199-234).  `fetch` stands for
`_download_binary` and returns either the body bytes with the
`Content-Type` header or a raised network error; `unzip` stands for
`zipfile.ZipFile(...).infolist()`.  The loop body calls `fetch` with no
`try`/`except`, so an error propagates and aborts the whole batch. -/
def collectGo (fetch : String → Except String (List Nat × Option String))
    (unzip : List Nat → List ZipMember) (hash : List Nat → String)
    (source_label download_dir : String) (now : Nat) :
    List Link → Except String (List DocumentMeta)
  | [] => .ok []
  | link :: rest =>
    match fetch link.url with
    | .error e => .error e
    | .ok (content, headers) =>
      let url_path := urlPathOf link.url
      let filename := osBasename url_path
      let ext := lowerStr (pySuffix filename)
      let local_path := download_dir ++ "/" ++ filename
      let meta := build_meta hash source_label link.title link.url local_path
        filename content headers now
      let metas :=
        meta :: (if ext = ".zip"
          then (handle_zip hash meta (unzip content) download_dir).1
          else [])
      match collectGo fetch unzip hash source_label download_dir now rest with
      | .error e => .error e
      | .ok ms => .ok (metas ++ ms)

/-- `download_and_collect_metadata` for an already-discovered candidate
list. -/
def download_and_collect_metadata
    (fetch : String → Except String (List Nat × Option String))
    (unzip : List Nat → List ZipMember) (hash : List Nat → String)
    (source_label : String) (links : List Link) (download_dir : String)
    (now : Nat) : Except String (List DocumentMeta) :=
  collectGo fetch unzip hash source_label download_dir now links

/-- Appending different strings to a common prefix gives different
strings. -/
theorem append_ne_of_ne (a b c : String) (h : b ≠ c) : a ++ b ≠ a ++ c := by
  intro hEq
  apply h
  apply String.ext
  have hdata := congrArg String.data hEq
  rw [String.data_append, String.data_append] at hdata
  exact List.append_cancel_left hdata

/-- The synthetic URLs `_handle_zip` assigns depend only on the parent URL
and the member paths. -/
theorem handleZipGo_urls (hash : List Nat → String) (mz : DocumentMeta)
    (ud : String) (entries : List ZipMember) :
    (handleZipGo hash mz ud entries).1.map (fun r => r.url)
      = (entries.filter (fun mem => !zipIsDir mem.filename
          && SUPPORTED_EXTENSIONS.contains
            (lowerStr (pySuffix (pathName mem.filename))))).map
        (fun mem => mz.url ++ "#" ++ mem.filename) := by
  induction entries with
  | nil => rfl
  | cons mem rest ih =>
    by_cases hdir : zipIsDir mem.filename
    · simp [handleZipGo, hdir, List.filter_cons, ih]
    · by_cases hext : lowerStr (pySuffix (pathName mem.filename)) ∈ SUPPORTED_EXTENSIONS
      · simp [handleZipGo, hdir, hext, List.filter_cons, ih, build_meta]
      · simp [handleZipGo, hdir, hext, List.filter_cons, ih]

/-- The checksums `_handle_zip` assigns depend only on the member bytes. -/
theorem handleZipGo_checksums (hash : List Nat → String) (mz : DocumentMeta)
    (ud : String) (entries : List ZipMember) :
    (handleZipGo hash mz ud entries).1.map (fun r => r.checksum)
      = (entries.filter (fun mem => !zipIsDir mem.filename
          && SUPPORTED_EXTENSIONS.contains
            (lowerStr (pySuffix (pathName mem.filename))))).map
        (fun mem => hash mem.content) := by
  induction entries with
  | nil => rfl
  | cons mem rest ih =>
    by_cases hdir : zipIsDir mem.filename
    · simp [handleZipGo, hdir, List.filter_cons, ih]
    · by_cases hext : lowerStr (pySuffix (pathName mem.filename)) ∈ SUPPORTED_EXTENSIONS
      · simp [handleZipGo, hdir, hext, List.filter_cons, ih, build_meta]
      · simp [handleZipGo, hdir, hext, List.filter_cons, ih]

/-- A member record with its `downloaded_at` field cleared, used to state
"identical up to timestamps". -/
def eraseDownloadTime (r : DocumentMeta) : DocumentMeta :=
  { r with downloaded_at := 0 }

/-- Apart from the propagated timestamp, the member records depend only on
the parent's source, title, URL and the staging directory. -/
theorem handleZipGo_time_congr (hash : List Nat → String)
    (m1 m2 : DocumentMeta) (ud : String)
    (hs : m1.source = m2.source) (ht : m1.title = m2.title)
    (hu : m1.url = m2.url) (entries : List ZipMember) :
    (handleZipGo hash m1 ud entries).1.map eraseDownloadTime
      = (handleZipGo hash m2 ud entries).1.map eraseDownloadTime := by
  induction entries with
  | nil => rfl
  | cons mem rest ih =>
    by_cases hdir : zipIsDir mem.filename
    · simp [handleZipGo, hdir, ih]
    · by_cases hext : lowerStr (pySuffix (pathName mem.filename)) ∈ SUPPORTED_EXTENSIONS
      · simp [handleZipGo, hdir, hext, ih, build_meta, eraseDownloadTime, hs, ht, hu]
      · simp [handleZipGo, hdir, hext, ih]

/-- C7: expanding the same archive entries twice with the same parent URL
yields identical synthetic URLs and identical checksums; when the parent
records agree on everything except the download timestamp (and the same
staging root is used), the member record lists agree on every field except
`downloaded_at`. -/
theorem handle_zip_deterministic (hash : List Nat → String)
    (m1 m2 : DocumentMeta) (entries : List ZipMember) (d1 d2 : String)
    (hurl : m1.url = m2.url) :
    ((handle_zip hash m1 entries d1).1.map (fun r => r.url)
        = (handle_zip hash m2 entries d2).1.map (fun r => r.url))
    ∧ ((handle_zip hash m1 entries d1).1.map (fun r => r.checksum)
        = (handle_zip hash m2 entries d2).1.map (fun r => r.checksum))
    ∧ (m1.source = m2.source → m1.title = m2.title →
        m1.local_path = m2.local_path → d1 = d2 →
        (handle_zip hash m1 entries d1).1.map eraseDownloadTime
          = (handle_zip hash m2 entries d2).1.map eraseDownloadTime) := by
  refine ⟨?_, ?_, ?_⟩
  · rw [handle_zip, handle_zip, handleZipGo_urls, handleZipGo_urls, hurl]
  · rw [handle_zip, handle_zip, handleZipGo_checksums, handleZipGo_checksums]
  · intro hs ht hl hd
    have hud : unzipDirFor d1 m1 = unzipDirFor d2 m2 := by
      rw [unzipDirFor, unzipDirFor, hl, hd]
    rw [handle_zip, handle_zip, hud]
    exact handleZipGo_time_congr hash m1 m2 _ hs ht hurl entries

/-- Witness for C7: the same one-member archive expanded under two parent
records that differ only in their download timestamp. -/
theorem handle_zip_deterministic_check :
    ((handle_zip (fun b => joinSep "," (b.map toString))
        ⟨"S", "T", "http://ex/a.zip", "a.zip", "data/raw/a.zip", 2,
         "application/zip", "c", 5⟩
        [⟨"docs/r.pdf", [1, 2]⟩] "data/raw").1.map (fun r => r.url)
      = (handle_zip (fun b => joinSep "," (b.map toString))
        ⟨"S", "T", "http://ex/a.zip", "a.zip", "data/raw/a.zip", 2,
         "application/zip", "c", 9⟩
        [⟨"docs/r.pdf", [1, 2]⟩] "data/raw").1.map (fun r => r.url))
    ∧ ((handle_zip (fun b => joinSep "," (b.map toString))
        ⟨"S", "T", "http://ex/a.zip", "a.zip", "data/raw/a.zip", 2,
         "application/zip", "c", 5⟩
        [⟨"docs/r.pdf", [1, 2]⟩] "data/raw").1.map eraseDownloadTime
      = (handle_zip (fun b => joinSep "," (b.map toString))
        ⟨"S", "T", "http://ex/a.zip", "a.zip", "data/raw/a.zip", 2,
         "application/zip", "c", 9⟩
        [⟨"docs/r.pdf", [1, 2]⟩] "data/raw").1.map eraseDownloadTime) := by
  have h := handle_zip_deterministic (fun b => joinSep "," (b.map toString))
    ⟨"S", "T", "http://ex/a.zip", "a.zip", "data/raw/a.zip", 2,
     "application/zip", "c", 5⟩
    ⟨"S", "T", "http://ex/a.zip", "a.zip", "data/raw/a.zip", 2,
     "application/zip", "c", 9⟩
    [⟨"docs/r.pdf", [1, 2]⟩] "data/raw" "data/raw" rfl
  exact ⟨h.1, h.2.2 rfl rfl rfl rfl⟩

/-- C5 (failing input): `SUPPORTED_EXTENSIONS` contains `.zip`, so a zip
member named `inner.zip` is retained by `_handle_zip` and yields a
metadata record, contradicting the function's own documentation (and the
specification), which say members outside {pdf, xls, xlsx, csv} are
silently dropped and a zip-within-zip is not retained. -/
theorem nested_zip_member_retained :
    (handle_zip (fun b => joinSep "," (b.map toString))
      ⟨"S", "T", "http://ex/a.zip", "a.zip", "data/raw/a.zip", 2,
       "application/zip", "c", 0⟩
      [⟨"inner.zip", [80, 75]⟩] "data/raw").1.map (fun r => r.url)
      = ["http://ex/a.zip#inner.zip"]
    ∧ ".zip" ∈ SUPPORTED_EXTENSIONS := by
  constructor
  · rfl
  · decide

/-- C10: two retained members with different inner paths but equal base
filenames are staged to one and the same path (the unzip directory joined
with the base name); the second staged write lands on the first one's
file, while the two synthetic URLs stay distinct. -/
theorem zip_member_basename_collision (hash : List Nat → String)
    (m : DocumentMeta) (f1 f2 : String) (b1 b2 : List Nat) (d : String)
    (h1 : zipIsDir f1 = false) (h2 : zipIsDir f2 = false)
    (he1 : lowerStr (pySuffix (pathName f1)) ∈ SUPPORTED_EXTENSIONS)
    (he2 : lowerStr (pySuffix (pathName f2)) ∈ SUPPORTED_EXTENSIONS)
    (hbase : pathName f1 = pathName f2)
    (hne : f1 ≠ f2) :
    ((handle_zip hash m [⟨f1, b1⟩, ⟨f2, b2⟩] d).1.map (fun r => r.local_path)
        = [unzipDirFor d m ++ "/" ++ pathName f1,
           unzipDirFor d m ++ "/" ++ pathName f1])
    ∧ ((handle_zip hash m [⟨f1, b1⟩, ⟨f2, b2⟩] d).1.map (fun r => r.url)
        = [m.url ++ "#" ++ f1, m.url ++ "#" ++ f2])
    ∧ m.url ++ "#" ++ f1 ≠ m.url ++ "#" ++ f2
    ∧ (handle_zip hash m [⟨f1, b1⟩, ⟨f2, b2⟩] d).2
        = [(unzipDirFor d m ++ "/" ++ pathName f1, b1),
           (unzipDirFor d m ++ "/" ++ pathName f1, b2)]
    ∧ fsAfter (handle_zip hash m [⟨f1, b1⟩, ⟨f2, b2⟩] d).2
        (unzipDirFor d m ++ "/" ++ pathName f1) = some b2 := by
  have hcompute : handle_zip hash m [⟨f1, b1⟩, ⟨f2, b2⟩] d
      = ([build_meta hash m.source (m.title ++ " - " ++ pathName f1)
            (m.url ++ "#" ++ f1) (unzipDirFor d m ++ "/" ++ pathName f1)
            (pathName f1) b1
            (some (guess_mime_type_from_ext (lowerStr (pySuffix (pathName f1)))))
            m.downloaded_at,
          build_meta hash m.source (m.title ++ " - " ++ pathName f2)
            (m.url ++ "#" ++ f2) (unzipDirFor d m ++ "/" ++ pathName f2)
            (pathName f2) b2
            (some (guess_mime_type_from_ext (lowerStr (pySuffix (pathName f2)))))
            m.downloaded_at],
         [(unzipDirFor d m ++ "/" ++ pathName f1, b1),
          (unzipDirFor d m ++ "/" ++ pathName f2, b2)]) := by
    rw [handle_zip]
    simp [handleZipGo, h1, h2, he1, he2]
  refine ⟨?_, ?_, append_ne_of_ne (m.url ++ "#") f1 f2 hne, ?_, ?_⟩
  · rw [hcompute, ← hbase]
    simp [build_meta]
  · rw [hcompute]
    simp [build_meta]
  · rw [hcompute, ← hbase]
  · rw [hcompute, ← hbase]
    simp [fsAfter]

/-- Witness for C10: `a/report.pdf` and `b/report.pdf` in one archive
collide on the staging path `data/raw/unzipped_a/report.pdf`. -/
theorem zip_member_basename_collision_check :
    ((handle_zip (fun b => joinSep "," (b.map toString))
        ⟨"S", "T", "http://ex/a.zip", "a.zip", "data/raw/a.zip", 2,
         "application/zip", "c", 0⟩
        [⟨"a/report.pdf", [1]⟩, ⟨"b/report.pdf", [2]⟩] "data/raw").1.map
          (fun r => r.local_path)
        = [unzipDirFor "data/raw"
             ⟨"S", "T", "http://ex/a.zip", "a.zip", "data/raw/a.zip", 2,
              "application/zip", "c", 0⟩ ++ "/" ++ pathName "a/report.pdf",
           unzipDirFor "data/raw"
             ⟨"S", "T", "http://ex/a.zip", "a.zip", "data/raw/a.zip", 2,
              "application/zip", "c", 0⟩ ++ "/" ++ pathName "a/report.pdf"])
    ∧ ("http://ex/a.zip" ++ "#" ++ "a/report.pdf"
        ≠ "http://ex/a.zip" ++ "#" ++ "b/report.pdf")
    ∧ fsAfter (handle_zip (fun b => joinSep "," (b.map toString))
        ⟨"S", "T", "http://ex/a.zip", "a.zip", "data/raw/a.zip", 2,
         "application/zip", "c", 0⟩
        [⟨"a/report.pdf", [1]⟩, ⟨"b/report.pdf", [2]⟩] "data/raw").2
        (unzipDirFor "data/raw"
           ⟨"S", "T", "http://ex/a.zip", "a.zip", "data/raw/a.zip", 2,
            "application/zip", "c", 0⟩ ++ "/" ++ pathName "a/report.pdf")
      = some [2] := by
  have h := zip_member_basename_collision (fun b => joinSep "," (b.map toString))
    ⟨"S", "T", "http://ex/a.zip", "a.zip", "data/raw/a.zip", 2,
     "application/zip", "c", 0⟩
    "a/report.pdf" "b/report.pdf" [1] [2] "data/raw"
    (by decide) (by decide) (by decide) (by decide) (by decide) (by decide)
  have hurls : ("http://ex/a.zip" : String) ++ "#" ++ "a/report.pdf"
      ≠ "http://ex/a.zip" ++ "#" ++ "b/report.pdf" := h.2.2.1
  exact ⟨h.1, hurls, h.2.2.2.2⟩

/-- C4 (failing input): with two discovery candidates, a fetch failure on
the first candidate propagates out of `download_and_collect_metadata` —
there is no `try`/`except` around `_download_binary` in the loop — so the
batch aborts with the error and no record is produced for the second
candidate, instead of the K-1 surviving records the claim requires. -/
theorem fetch_failure_aborts_batch :
    download_and_collect_metadata
      (fun u => if u = "https://ex.org/a.pdf" then .error "NetworkError"
        else .ok ([1], some "application/pdf"))
      (fun _ => []) (fun b => joinSep "," (b.map toString)) "SRC"
      [⟨"https://ex.org/a.pdf", "A"⟩, ⟨"https://ex.org/b.pdf", "B"⟩]
      "data/raw" 0
      = .error "NetworkError" := by
  rfl

/-! ## Downstream store rows (`src/storage/sqlite_db.py`) and the stage
pipeline (`src/agents/*.py`) -/

/-- One row of `document_texts`.  `created_at` is the monotone insertion
tick (equal to the row id), modelling the `utcnow` default. -/
structure DocumentText where
  id : Nat
  document_id : Nat
  language : String
  is_original : Bool
  full_text : String
  summary : Option String
  created_at : Nat
deriving Repr, DecidableEq

/-- One row of `keyword_configs`. -/
structure KeywordConfig where
  id : Nat
  keyword : String
  category : String
  is_active : Bool
deriving Repr, DecidableEq

/-- One row of `keyword_matches`. -/
structure KeywordMatch where
  id : Nat
  document_id : Nat
  text_id : Nat
  keyword_id : Nat
  occurrences : Nat
  context_snippet : Option String
deriving Repr, DecidableEq

/-- One row of `notification_logs`. -/
structure NotificationLog where
  id : Nat
  document_id : Nat
  subject : String
  recipients : String
  status : String
  error_message : Option String
deriving Repr, DecidableEq

/-- The collaborator-owned tables the pipeline stages write to; each
helper in `sqlite_db.py` commits its insert in its own session, so every
write below is immediately persistent. -/
structure PipeState where
  document_texts : List DocumentText
  keyword_configs : List KeywordConfig
  keyword_matches : List KeywordMatch
  notification_logs : List NotificationLog
  nextTextId : Nat
  nextMatchId : Nat
  nextNoteId : Nat
deriving Repr, DecidableEq

/-- `save_document_text`: insert-and-commit one text row. -/
def save_document_text (st : PipeState) (document_id : Nat) (language : String)
    (is_original : Bool) (text : String) (summary : Option String) :
    DocumentText × PipeState :=
  let row : DocumentText :=
    { id := st.nextTextId, document_id := document_id, language := language,
      is_original := is_original, full_text := text, summary := summary,
      created_at := st.nextTextId }
  (row, { st with document_texts := st.document_texts ++ [row],
                  nextTextId := st.nextTextId + 1 })

/-- `get_active_keywords`. -/
def get_active_keywords (st : PipeState) : List KeywordConfig :=
  st.keyword_configs.filter (fun k => k.is_active)

/-- `save_keyword_match`: insert-and-commit one match row. -/
def save_keyword_match (st : PipeState) (document_id text_id keyword_id
    occurrences : Nat) (context_snippet : Option String) :
    KeywordMatch × PipeState :=
  let row : KeywordMatch :=
    { id := st.nextMatchId, document_id := document_id, text_id := text_id,
      keyword_id := keyword_id, occurrences := occurrences,
      context_snippet := context_snippet }
  (row, { st with keyword_matches := st.keyword_matches ++ [row],
                  nextMatchId := st.nextMatchId + 1 })

/-- `log_notification`: insert-and-commit one notification log row. -/
def log_notification (st : PipeState) (document_id : Nat) (subject
    recipients status : String) (error_message : Option String) :
    NotificationLog × PipeState :=
  let row : NotificationLog :=
    { id := st.nextNoteId, document_id := document_id, subject := subject,
      recipients := recipients, status := status,
      error_message := error_message }
  (row, { st with notification_logs := st.notification_logs ++ [row],
                  nextNoteId := st.nextNoteId + 1 })

/-! ### Content extraction (`src/agents/content_extraction_agent.py`) -/

/-- `extract_text_for_document_file`: route on the lower-cased extension;
`pdfX`, `xlsX`, `csvX` stand for the format-specific extractors built on
PyPDF2 / pandas.  Any other extension logs and returns `""`. -/
def extract_text_for_document_file (pdfX xlsX csvX : String → String)
    (file_path : String) : String :=
  let suffix := lowerStr (pathSuffix file_path)
  if suffix = ".pdf" then pdfX file_path
  else if suffix = ".xls" ∨ suffix = ".xlsx" then xlsX file_path
  else if suffix = ".csv" then csvX file_path
  else ""

/-- `process_document_for_text` (content_extraction_agent.py lines
72-96): skip ZIPs, extract text, store nothing when the result strips to
empty, otherwise save one original-language text row. -/
def process_document_for_text (pdfX xlsX csvX : String → String)
    (st : PipeState) (document : Document) (language : String) : PipeState :=
  let suffix := lowerStr (pathSuffix document.local_path)
  if suffix = ".zip" then st
  else
    let text := extract_text_for_document_file pdfX xlsX csvX document.local_path
    if stripIsEmpty text then st
    else (save_document_text st document.id language true text none).2

/-! ### Keyword analysis (`src/agents/keyword_agent.py`) -/

/-- Start indices of the non-overlapping matches `re.finditer` finds for a
literal pattern: scan left to right, restart after each match (one
position ahead for an empty pattern). -/
def scanLiteralMatches (t k : List Char) (i : Nat) : List Nat :=
  if h : t.length + 1 ≤ i then []
  else if k.isPrefixOf (t.drop i) then
    i :: scanLiteralMatches t k (i + max k.length 1)
  else if h2 : i < t.length then scanLiteralMatches t k (i + 1)
  else []
termination_by t.length + 1 - i
decreasing_by
  all_goals simp_wf
  all_goals have hm := Nat.le_max_right k.length 1
  all_goals omega

/-- `find_keyword_occurrences`: case-insensitive literal occurrence count
plus a context snippet around the first occurrence; `shorten` stands for
`textwrap.shorten(..., width=400)`. -/
def find_keyword_occurrences (shorten : String → String)
    (text keyword : String) : Nat × Option String :=
  let tl := text.data.map Char.toLower
  let kl := keyword.data.map Char.toLower
  let starts := scanLiteralMatches tl kl 0
  match starts with
  | [] => (0, none)
  | s :: _ =>
    let e := s + kl.length
    let start := s - 200
    let stop := min text.data.length (e + 200)
    (starts.length, some (shorten ⟨(text.data.drop start).take (stop - start)⟩))

/-- `analyse_document_text`: skip blank texts, else record one match row
per active keyword that occurs in the text. -/
def analyse_document_text (shorten : String → String) (st : PipeState)
    (text_row : DocumentText) : PipeState :=
  let text := text_row.full_text
  if stripIsEmpty text then st
  else
    (get_active_keywords st).foldl
      (fun acc kw =>
        let r := find_keyword_occurrences shorten text kw.keyword
        if r.1 > 0 then
          (save_keyword_match acc text_row.document_id text_row.id kw.id r.1 r.2).2
        else acc)
      st

/-! ### Translation (`src/agents/translation_agent.py`) -/

/-- `translate_text`: without a configured client the input is echoed;
with one, the OpenAI call (`callApi`, which may raise) is made on the
prompt built from the first 8000 characters, and its answer is stripped. -/
def translate_text (hasClient : Bool)
    (callApi : String → Except String String)
    (text source_lang target_lang : String) : Except String String :=
  if !hasClient then .ok text
  else
    let prompt :=
      "Translate the following " ++ source_lang ++ " regulatory text into "
        ++ target_lang ++ ".\n"
        ++ "Preserve technical and regulatory terms as much as possible.\n\n"
        ++ "Text:\n" ++ (⟨text.data.take 8000⟩ : String)
    match callApi prompt with
    | .error e => .error e
    | .ok content => .ok (pyStrip content)

/-- `create_translation`: translate an existing text row and save the
translated row; a raised API error propagates without touching the
store. -/
def create_translation (hasClient : Bool)
    (callApi : String → Except String String) (shorten : String → String)
    (st : PipeState) (text_row : DocumentText)
    (source_lang target_lang : String) :
    Except String (DocumentText × PipeState) :=
  match translate_text hasClient callApi text_row.full_text source_lang target_lang with
  | .error e => .error e
  | .ok translated_text =>
    .ok (save_document_text st text_row.document_id target_lang false
      translated_text (some (shorten translated_text)))

/-! ### Notification (`src/agents/notification_agent.py`) -/

/-- The SMTP environment configuration; `none` models an unset variable
and `sender` stands for `SMTP_FROM`. -/
structure SmtpConfig where
  host : Option String
  port : Nat
  user : Option String
  password : Option String
  sender : Option String
  to_default : String
deriving Repr, DecidableEq

/-- Python truthiness of an optional environment string. -/
def truthyStr : Option String → Bool
  | none => false
  | some s => !(s = "")

/-- `[addr.strip() for addr in SMTP_TO_DEFAULT.split(",") if addr.strip()]`. -/
def smtpRecipients (cfg : SmtpConfig) : List String :=
  (((splitOnChar ',' cfg.to_default.data).map
    (fun c => pyStrip ⟨c⟩)).filter (fun a => !(a = "")))

/-- The guard `SMTP_HOST and SMTP_USER and SMTP_PASSWORD and SMTP_FROM and
recipients` at the top of `send_email_notification`. -/
def smtpConfigured (cfg : SmtpConfig) : Bool :=
  truthyStr cfg.host && truthyStr cfg.user && truthyStr cfg.password
    && truthyStr cfg.sender && !(smtpRecipients cfg).isEmpty

/-- `build_notification_body`.  The per-match keyword name resolves the
`KeywordMatch.keyword` relationship against the keyword table. -/
def build_notification_body (st : PipeState) (document : Document)
    (matchRows : List KeywordMatch) : String :=
  let base := ["Document: " ++ document.title,
               "Source: " ++ document.source,
               "URL: " ++ document.url,
               "Version: " ++ toString document.version,
               "",
               "Keywords detected:"]
  let withKw := matchRows.foldl
    (fun acc m =>
      let kwName := (((st.keyword_configs.find?
        (fun k => k.id == m.keyword_id)).map (fun k => k.keyword)).getD "")
      let acc1 := acc ++ ["- " ++ kwName ++ " (occurrences: "
        ++ toString m.occurrences ++ ")"]
      match m.context_snippet with
      | some snip => acc1 ++ ["  Context: " ++ snip, ""]
      | none => acc1)
    base
  joinSep "\n" withKw

/-- The message handed to `smtplib`. -/
structure Mail where
  sender : String
  recipients : List String
  subject : String
  body : String
deriving Repr, DecidableEq

/-- `send_email_notification` (notification_agent.py lines 41-101):
return silently when the SMTP configuration is incomplete or the document
is missing; skip when fewer than `min_keywords` match rows exist for the
document; otherwise attempt the send (`sendMail` stands for the
`smtplib.SMTP` session) and log a SENT or ERROR row. -/
def send_email_notification (cfg : SmtpConfig)
    (sendMail : Mail → Except String Unit) (docs : List Document)
    (st : PipeState) (document_id min_keywords : Nat) : PipeState :=
  if !smtpConfigured cfg then st
  else
    match docs.find? (fun d => d.id == document_id) with
    | none => st
    | some doc =>
      let matchRows := st.keyword_matches.filter
        (fun m => m.document_id == document_id)
      if matchRows.length < min_keywords then st
      else
        let subject := "[RegWatch] New/Updated document: " ++ doc.title
        let body := build_notification_body st doc matchRows
        let recipients := smtpRecipients cfg
        let outcome := sendMail
          { sender := (cfg.sender.getD ""), recipients := recipients,
            subject := subject, body := body }
        let statusPair : String × Option String :=
          match outcome with
          | .ok _ => ("SENT", none)
          | .error e => ("ERROR", some e)
        (log_notification st document_id subject (joinSep "," recipients)
          statusPair.1 statusPair.2).2

/-! ### The per-document stage loop (`src/agents/orchestrator.py`) -/

/-- The external collaborators the stage loop depends on. -/
structure PipelineEnv where
  pdfX : String → String
  xlsX : String → String
  csvX : String → String
  hasClient : Bool
  callApi : String → Except String String
  shorten : String → String
  smtp : SmtpConfig
  sendMail : Mail → Except String Unit

/-- The `for ot in original_texts` body: translate, then keyword-scan the
original and the translation.  A raised translation error stops the loop
and propagates, keeping all state committed so far. -/
def translateLoop (env : PipelineEnv) (st : PipeState)
    (source_lang target_lang : String) :
    List DocumentText → PipeState × Option String
  | [] => (st, none)
  | ot :: rest =>
    match create_translation env.hasClient env.callApi env.shorten st ot
        source_lang target_lang with
    | .error e => (st, some e)
    | .ok (translated, st2) =>
      let st3 := analyse_document_text env.shorten st2 ot
      let st4 := analyse_document_text env.shorten st3 translated
      translateLoop env st4 source_lang target_lang rest

/-- The per-document body of `run_full_pipeline_for_authority` (lines
42-81): content extraction, the originals query ordered by `created_at`
descending, translation plus keyword analysis, then the notification with
`min_keywords=1`. -/
def process_one_document (env : PipelineEnv) (docs : List Document)
    (st : PipeState) (document : Document)
    (original_language target_language : String) : PipeState × Option String :=
  let st1 := process_document_for_text env.pdfX env.xlsX env.csvX st document
    original_language
  let original_texts := (st1.document_texts.filter
    (fun t => t.document_id == document.id && t.is_original)).reverse
  match translateLoop env st1 original_language target_language original_texts with
  | (st2, some e) => (st2, some e)
  | (st2, none) =>
    (send_email_notification env.smtp env.sendMail docs st2 document.id 1, none)

/-- The `for doc in docs` stage loop of `run_full_pipeline_for_authority`:
documents are processed in order and there is no `try`/`except` around the
body, so the first raised stage error aborts the remaining documents. -/
def run_pipeline_stages (env : PipelineEnv) (docs : List Document)
    (original_language target_language : String) (st : PipeState) :
    PipeState × Option String :=
  go docs st
where
  go : List Document → PipeState → PipeState × Option String
    | [], st => (st, none)
    | d :: rest, st =>
      match process_one_document env docs st d original_language target_language with
      | (st2, some e) => (st2, some e)
      | (st2, none) => go rest st2

/-- C8: when text extraction yields an empty or whitespace-only result,
the text-extraction stage stores no text row and returns normally; the
unsupported-format case is exactly the empty result, since the router
returns `""` for any extension outside pdf/xls/xlsx/csv. -/
theorem empty_extraction_stores_nothing (pdfX xlsX csvX : String → String)
    (st : PipeState) (document : Document) (language : String)
    (h : stripIsEmpty (extract_text_for_document_file pdfX xlsX csvX
      document.local_path) = true) :
    process_document_for_text pdfX xlsX csvX st document language = st
    ∧ (∀ fp : String, lowerStr (pathSuffix fp) ≠ ".pdf" →
        lowerStr (pathSuffix fp) ≠ ".xls" → lowerStr (pathSuffix fp) ≠ ".xlsx" →
        lowerStr (pathSuffix fp) ≠ ".csv" →
        extract_text_for_document_file pdfX xlsX csvX fp = "") := by
  constructor
  · rw [process_document_for_text]
    by_cases hz : lowerStr (pathSuffix document.local_path) = ".zip"
    · simp [hz]
    · simp [hz, h]
  · intro fp h1 h2 h3 h4
    rw [extract_text_for_document_file]
    simp [h1, h2, h3, h4]

/-- Witness for C8: a pdf whose extractor returns whitespace stores
nothing, and a `.docx` routes to the empty result. -/
theorem empty_extraction_stores_nothing_check :
    process_document_for_text (fun _ => " \n") (fun _ => "") (fun _ => "")
      ⟨[], [], [], [], 0, 0, 0⟩
      ⟨1, "S", "T", "http://a/x.pdf", "x.pdf", "data/raw/x.pdf", 3,
       "application/pdf", "c", 1, none, 0, 0, 0⟩ "FR"
      = ⟨[], [], [], [], 0, 0, 0⟩
    ∧ extract_text_for_document_file (fun _ => " \n") (fun _ => "")
        (fun _ => "") "data/raw/x.docx" = "" := by
  have h := empty_extraction_stores_nothing (fun _ => " \n") (fun _ => "")
    (fun _ => "") ⟨[], [], [], [], 0, 0, 0⟩
    ⟨1, "S", "T", "http://a/x.pdf", "x.pdf", "data/raw/x.pdf", 3,
     "application/pdf", "c", 1, none, 0, 0, 0⟩ "FR" (by decide)
  exact ⟨h.1, h.2 "data/raw/x.docx" (by decide) (by decide) (by decide)
    (by decide)⟩

/-- Counterexample to C9 as stated: with `SMTP_HOST` unset the function
returns before ever looking at the matches, so a document whose
keyword-match count meets the minimum gets no notification attempt — the
notification log is unchanged. -/
theorem notification_skipped_without_smtp_config :
    send_email_notification
      ⟨none, 587, some "u", some "p", some "from@x", "to@x"⟩
      (fun _ => .ok ())
      [⟨1, "S", "T", "http://a/x.pdf", "x.pdf", "data/raw/x.pdf", 3,
        "application/pdf", "c", 1, none, 0, 0, 0⟩]
      ⟨[], [], [⟨0, 1, 0, 0, 2, none⟩], [], 0, 1, 0⟩ 1 1
      = ⟨[], [], [⟨0, 1, 0, 0, 2, none⟩], [], 0, 1, 0⟩
    ∧ 1 ≤ ((⟨[], [], [⟨0, 1, 0, 0, 2, none⟩], [], 0, 1, 0⟩ :
        PipeState).keyword_matches.filter (fun m => m.document_id == 1)).length := by
  exact ⟨rfl, by decide⟩

/-- C9 (amended): when the SMTP configuration is complete and the
document exists, a notification attempt — observable as exactly one new
SENT/ERROR log row — happens if and only if the number of keyword-match
rows recorded for the document reaches the configured minimum; below the
minimum nothing is attempted and the store is unchanged. -/
theorem notification_iff_threshold (cfg : SmtpConfig)
    (sendMail : Mail → Except String Unit) (docs : List Document)
    (st : PipeState) (document_id min_keywords : Nat)
    (hcfg : smtpConfigured cfg = true)
    (hdoc : (docs.find? (fun d => d.id == document_id)).isSome = true) :
    ((send_email_notification cfg sendMail docs st document_id
        min_keywords).notification_logs.length
      = st.notification_logs.length + 1
      ↔ min_keywords ≤ (st.keyword_matches.filter
          (fun m => m.document_id == document_id)).length)
    ∧ ((st.keyword_matches.filter
        (fun m => m.document_id == document_id)).length < min_keywords →
      send_email_notification cfg sendMail docs st document_id min_keywords
        = st) := by
  obtain ⟨doc, hfind⟩ := Option.isSome_iff_exists.mp hdoc
  rw [send_email_notification, hcfg, hfind]
  by_cases hlt : (st.keyword_matches.filter
      (fun m => m.document_id == document_id)).length < min_keywords
  · simp only [Bool.not_true, Bool.false_eq_true, if_false, if_pos hlt]
    constructor
    · constructor
      · intro hlen
        omega
      · intro hge
        omega
    · intro _
      trivial
  · simp only [Bool.not_true, Bool.false_eq_true, if_false, if_neg hlt]
    constructor
    · constructor
      · intro _
        omega
      · intro _
        simp [log_notification]
    · intro hcontra
      exact absurd hcontra hlt

/-- Witness for C9 (amended): full SMTP configuration, an existing
document and one recorded match against minimum 1. -/
theorem notification_iff_threshold_check :
    ((send_email_notification
        ⟨some "smtp.x", 587, some "u", some "p", some "from@x", "to@x"⟩
        (fun _ => .ok ())
        [⟨1, "S", "T", "http://a/x.pdf", "x.pdf", "data/raw/x.pdf", 3,
          "application/pdf", "c", 1, none, 0, 0, 0⟩]
        ⟨[], [], [⟨0, 1, 0, 0, 2, none⟩], [], 0, 1, 0⟩ 1 1).notification_logs.length
      = (⟨[], [], [⟨0, 1, 0, 0, 2, none⟩], [], 0, 1, 0⟩ :
          PipeState).notification_logs.length + 1
      ↔ 1 ≤ ((⟨[], [], [⟨0, 1, 0, 0, 2, none⟩], [], 0, 1, 0⟩ :
          PipeState).keyword_matches.filter
            (fun m => m.document_id == 1)).length)
    ∧ (((⟨[], [], [⟨0, 1, 0, 0, 2, none⟩], [], 0, 1, 0⟩ :
          PipeState).keyword_matches.filter
            (fun m => m.document_id == 1)).length < 1 →
        send_email_notification
          ⟨some "smtp.x", 587, some "u", some "p", some "from@x", "to@x"⟩
          (fun _ => .ok ())
          [⟨1, "S", "T", "http://a/x.pdf", "x.pdf", "data/raw/x.pdf", 3,
            "application/pdf", "c", 1, none, 0, 0, 0⟩]
          ⟨[], [], [⟨0, 1, 0, 0, 2, none⟩], [], 0, 1, 0⟩ 1 1
          = ⟨[], [], [⟨0, 1, 0, 0, 2, none⟩], [], 0, 1, 0⟩) :=
  notification_iff_threshold
    ⟨some "smtp.x", 587, some "u", some "p", some "from@x", "to@x"⟩
    (fun _ => .ok ())
    [⟨1, "S", "T", "http://a/x.pdf", "x.pdf", "data/raw/x.pdf", 3,
      "application/pdf", "c", 1, none, 0, 0, 0⟩]
    ⟨[], [], [⟨0, 1, 0, 0, 2, none⟩], [], 0, 1, 0⟩ 1 1
    (by decide) (by rfl)

/-- Collaborators for the C6 failing run: the pdf extractor yields text
and the translation API call always raises. -/
def envTranslationFails : PipelineEnv :=
  { pdfX := fun _ => "alpha", xlsX := fun _ => "", csvX := fun _ => "",
    hasClient := true,
    callApi := fun _ => .error "APIConnectionError",
    shorten := fun s => s,
    smtp := ⟨none, 587, none, none, none, ""⟩,
    sendMail := fun _ => .ok () }

/-- The two-document batch for the C6 failing run. -/
def docsTwoPdf : List Document :=
  [⟨1, "S", "T1", "http://a/x.pdf", "x.pdf", "data/raw/x.pdf", 3,
    "application/pdf", "c1", 1, none, 0, 0, 0⟩,
   ⟨2, "S", "T2", "http://a/y.pdf", "y.pdf", "data/raw/y.pdf", 3,
    "application/pdf", "c2", 1, none, 0, 0, 0⟩]

/-- C6 (failing input): in a two-document batch whose first document's
translation call raises, the error does not roll back that document's
already-committed text row (each stage commits in its own session), but it
propagates out of the per-document loop, so the second document is never
processed — contradicting the claim that a later-stage failure does not
prevent the other documents in the batch from completing their stages. -/
theorem translation_failure_aborts_rest_of_batch :
    (run_pipeline_stages envTranslationFails docsTwoPdf "FR" "EN"
        ⟨[], [], [], [], 0, 0, 0⟩).2 = some "APIConnectionError"
    ∧ ((run_pipeline_stages envTranslationFails docsTwoPdf "FR" "EN"
        ⟨[], [], [], [], 0, 0, 0⟩).1.document_texts.filter
          (fun t => t.document_id == 1)).length = 1
    ∧ ((run_pipeline_stages envTranslationFails docsTwoPdf "FR" "EN"
        ⟨[], [], [], [], 0, 0, 0⟩).1.document_texts.filter
          (fun t => t.document_id == 2)).length = 0 := by
  refine ⟨rfl, rfl, rfl⟩
